import Mathlib

/-!
Verification of the hybrid timeline engine (twitter-poc).

The definitions below are a shallow embedding of the TypeScript source:
* `db.ts` — `CELEBRITY_THRESHOLD`, the relational data (`Store`),
* `index.ts` — the write path `app.post('/tweet')` (`postTweet`), the read
  path `app.get('/timeline/:userId')` (`getTimeline`) with its helpers
  `fetchTweetIdsFromRedis` (cache resolution, `resolveCached`),
  `fetchCelebrityTweetsFromDB` (`celebrityQuery`) and the merge stage
  (`uniqueTweets`, `timelinePage`),
* `worker.ts` — the fan-out worker (`lPush`/`lTrim`/`workerOp`/`processJob`).

Machine integers of the source are modelled as `Nat`; timestamps are the
numeric value of `Date.getTime()`.  Fallible external calls are modelled by
explicit outcome parameters (`Except` for the cache read, a failure oracle
for the worker's per-target cache updates).
-/

/-- `CELEBRITY_THRESHOLD` from `db.ts` (the broadcast threshold `T`). -/
def CELEBRITY_THRESHOLD : Nat := 5

/-- A row of the `tweets` table (interface `Tweet` in `index.ts`). -/
structure Tweet where
  id : Nat
  sender_id : Nat
  text : String
  timestamp : Nat
deriving DecidableEq

/-- The durable store: `users`, `follows` (pairs `(follower_id, followee_id)`),
`tweets`, and the next serial id the insert will assign. -/
structure Store where
  users : List Nat
  follows : List (Nat × Nat)
  tweets : List Tweet
  nextId : Nat
deriving DecidableEq

/-- `SELECT COUNT(*) FROM follows WHERE followee_id = u`. -/
def followerCount (s : Store) (u : Nat) : Nat :=
  (s.follows.filter (fun e => e.2 == u)).length

/-- `SELECT follower_id FROM follows WHERE followee_id = u`. -/
def followerIds (s : Store) (u : Nat) : List Nat :=
  (s.follows.filter (fun e => e.2 == u)).map Prod.fst

/-- A propagation job: the message published to RabbitMQ in the write path
(`{ tweetId, followers }`). -/
structure Job where
  tweetId : Nat
  followers : List Nat
deriving DecidableEq

/-- Observable events of the write path, in execution order. -/
inductive WEv
  | insertTweet (id : Nat)
  | countFollowers (u : Nat)
  | listFollowers (u : Nat)
  | publish (j : Job)
deriving DecidableEq

/-- The outcome of one `POST /tweet` request: HTTP status, resulting store,
jobs enqueued, and the trace of store/queue operations performed. -/
structure PostResult where
  status : Nat
  store : Store
  jobs : List Job
  trace : List WEv
deriving DecidableEq

/-- The write path `app.post('/tweet')` from `index.ts`.  `userId`/`text` are
the (possibly missing) request-body fields; JS falsiness of `0`/`""` is kept.
`now` is the store-assigned timestamp. -/
def postTweet (s : Store) (userId : Option Nat) (text : Option String) (now : Nat) :
    PostResult :=
  match userId, text with
  | some uid, some txt =>
    if uid != 0 && txt != "" then
      let tid := s.nextId
      let tweet : Tweet := ⟨tid, uid, txt, now⟩
      let s' : Store := { s with tweets := s.tweets ++ [tweet], nextId := tid + 1 }
      let fc := followerCount s' uid
      if fc < CELEBRITY_THRESHOLD then
        let job : Job := ⟨tid, followerIds s' uid⟩
        { status := 200, store := s', jobs := [job],
          trace := [WEv.insertTweet tid, WEv.countFollowers uid,
                    WEv.listFollowers uid, WEv.publish job] }
      else
        { status := 200, store := s', jobs := [],
          trace := [WEv.insertTweet tid, WEv.countFollowers uid] }
    else
      { status := 400, store := s, jobs := [], trace := [] }
  | _, _ => { status := 400, store := s, jobs := [], trace := [] }

/-! ### Fan-out worker (`worker.ts`) -/

/-- Redis `LPUSH`: add one value at the front of the list. -/
def lPush (l : List Nat) (v : Nat) : List Nat := v :: l

/-- Redis `LTRIM key start stop`: keep the elements at indices
`start..stop` inclusive. -/
def lTrim (l : List Nat) (start stop : Nat) : List Nat :=
  (l.drop start).take (stop + 1 - start)

/-- One completed worker operation on a single consumer's cache list:
`lPush(timelineKey, tweetId)` followed by `lTrim(timelineKey, 0, 19)`. -/
def workerOp (cache : List Nat) (tweetId : Nat) : List Nat :=
  lTrim (lPush cache tweetId) 0 19

/-- Worker acknowledgement outcome: `channel.ack(msg)` or
`channel.nack(msg, false, true)` (requeue). -/
inductive Ack
  | ack
  | nackRequeue
deriving DecidableEq

/-- Point update of the per-consumer cache map. -/
def updateCache (cs : Nat → List Nat) (k : Nat) (v : List Nat) : Nat → List Nat :=
  fun q => if q = k then v else cs q

/-- The worker's per-follower loop: apply `workerOp` for each target consumer
in order; `fails f = true` means the cache update for consumer `f` throws.
On the first failure the loop stops with a negative acknowledgement and the
updates already applied stay. -/
def fanoutLoop (tid : Nat) (fails : Nat → Bool) :
    List Nat → (Nat → List Nat) → ((Nat → List Nat) × Ack)
  | [], cs => (cs, Ack.ack)
  | f :: rest, cs =>
    if fails f then (cs, Ack.nackRequeue)
    else fanoutLoop tid fails rest (updateCache cs f (workerOp (cs f) tid))

/-- Processing of one propagation job by `startWorker` in `worker.ts`. -/
def processJob (cs : Nat → List Nat) (fails : Nat → Bool) (j : Job) :
    ((Nat → List Nat) × Ack) :=
  fanoutLoop j.tweetId fails j.followers cs

/-- The caches after applying the worker update for each consumer in
`targets`, in order, with no failure. -/
def applyUpdates (tid : Nat) (targets : List Nat) (cs : Nat → List Nat) :
    Nat → List Nat :=
  targets.foldl (fun m f => updateCache m f (workerOp (m f) tid)) cs

/-! ### Merge engine (`index.ts`, read path) -/

/-- Descending-timestamp comparison used by
`uniqueTweets.sort((a, b) => b.timestamp - a.timestamp)`. -/
def tsDesc (a b : Tweet) : Prop := b.timestamp ≤ a.timestamp

instance : DecidableRel tsDesc := fun a b => Nat.decLe b.timestamp a.timestamp

instance : IsTotal Tweet tsDesc :=
  ⟨fun a b => Nat.le_total b.timestamp a.timestamp⟩

instance : IsTrans Tweet tsDesc :=
  ⟨fun _ _ _ h1 h2 => le_trans h2 h1⟩

/-- One step of the JavaScript `Map` built by
`new Map(allTweets.map(tweet => [tweet.id, tweet]))`: setting key `k`
overwrites the value in place when the key exists (keeping its position),
and appends at the end otherwise. -/
def mapUpsert (m : List (Nat × Tweet)) (k : Nat) (v : Tweet) : List (Nat × Tweet) :=
  if m.any (fun p => p.1 == k) then
    m.map (fun p => if p.1 == k then (k, v) else p)
  else m ++ [(k, v)]

/-- The id-keyed JavaScript `Map` of a tweet list, in insertion order. -/
def tweetMap (l : List Tweet) : List (Nat × Tweet) :=
  l.foldl (fun m t => mapUpsert m t.id t) []

/-- `uniqueTweets` from the read path: `Array.from(map.values())`. -/
def uniqueTweets (l : List Tweet) : List Tweet :=
  (tweetMap l).map Prod.snd

/-- Resolution of cached tweet ids against the store
(`fetchTweetIdsFromRedis`, the Postgres half): batch lookup of the ids, sorted
by timestamp descending; skipped when the cache list is empty. -/
def resolveCached (tweets : List Tweet) (ids : List Nat) : List Tweet :=
  if 0 < ids.length then
    List.insertionSort tsDesc (tweets.filter (fun t => ids.contains t.id))
  else []

/-- `fetchCelebrityTweetsFromDB`: tweets of broadcast producers
(follower count ≥ threshold at query time) followed by `uid`, newest first,
limited to 20. -/
def celebrityQuery (s : Store) (uid : Nat) : List Tweet :=
  (List.insertionSort tsDesc (s.tweets.filter
    (fun t => s.follows.contains (uid, t.sender_id)
      && decide (CELEBRITY_THRESHOLD ≤ followerCount s t.sender_id)))).take 20

/-- The merge stage of the read path: concatenate, deduplicate by id, sort
by timestamp descending, take the top 20. -/
def timelinePage (cachedTweets celebrityTweets : List Tweet) : List Tweet :=
  (List.insertionSort tsDesc (uniqueTweets (cachedTweets ++ celebrityTweets))).take 20

/-- Observable events of the read path, in execution order. -/
inductive REv
  | userCheck (u : Nat)
  | cacheRead (u : Nat)
  | broadcastQuery (u : Nat)
deriving DecidableEq

/-- Outcome of one `GET /timeline/:userId` request. -/
inductive TimelineResult
  | notFound
  | serverError
  | page (timeline : List Tweet) (stats : Nat × Nat × Nat × Nat)
deriving DecidableEq

/-- The read path `app.get('/timeline/:userId')` from `index.ts`.
`cacheRes` is the outcome of the Redis `lRange` call; an exception there is
re-thrown by `fetchTweetIdsFromRedis` and caught by the handler's outer
`catch`, which answers 500. -/
def getTimeline (s : Store) (uid : Nat) (cacheRes : Except Unit (List Nat)) :
    TimelineResult × List REv :=
  if s.users.contains uid then
    match cacheRes with
    | Except.error _ =>
      (TimelineResult.serverError, [REv.userCheck uid, REv.cacheRead uid])
    | Except.ok cachedTweetIds =>
      let cachedTweets := resolveCached s.tweets cachedTweetIds
      let celebrityTweets := celebrityQuery s uid
      let timeline := timelinePage cachedTweets celebrityTweets
      (TimelineResult.page timeline
        (cachedTweets.length, celebrityTweets.length,
         (uniqueTweets (cachedTweets ++ celebrityTweets)).length, timeline.length),
       [REv.userCheck uid, REv.cacheRead uid, REv.broadcastQuery uid])
  else (TimelineResult.notFound, [REv.userCheck uid])

/-- Whether a timeline outcome is a success page. -/
def isPage : TimelineResult → Bool
  | TimelineResult.page _ _ => true
  | _ => false

/-- Well-formedness of the id-keyed map: keys are distinct and every entry's
value carries its key as id. -/
def goodKeys (m : List (Nat × Tweet)) : Prop :=
  (m.map Prod.fst).Nodup ∧ ∀ p ∈ m, p.2.id = p.1

/-- `map.get(k)`: the value the id-keyed map associates to key `k`. -/
def findVal (m : List (Nat × Tweet)) (k : Nat) : Option Tweet :=
  (m.find? (fun p => p.1 == k)).map Prod.snd

/-! ### Helper lemmas -/

theorem goodKeys_mapUpsert {m : List (Nat × Tweet)} {k : Nat} {v : Tweet}
    (hm : goodKeys m) (hv : v.id = k) : goodKeys (mapUpsert m k v) := by
  obtain ⟨hnd, hids⟩ := hm
  unfold mapUpsert
  split
  case isTrue h =>
    refine ⟨?_, ?_⟩
    · have heq : (m.map (fun p => if p.1 == k then (k, v) else p)).map Prod.fst
          = m.map Prod.fst := by
        rw [List.map_map]
        apply List.map_congr_left
        intro p _
        by_cases hpk : p.1 = k
        · simp [hpk]
        · simp [hpk]
      rw [heq]; exact hnd
    · intro p hp
      rw [List.mem_map] at hp
      obtain ⟨q, hq, rfl⟩ := hp
      by_cases hqk : q.1 = k
      · simp [hqk, hv]
      · simp only [hqk, beq_iff_eq, if_neg hqk]
        exact hids q hq
  case isFalse h =>
    refine ⟨?_, ?_⟩
    · rw [List.map_append]
      simp only [List.map_cons, List.map_nil]
      rw [List.nodup_append]
      refine ⟨hnd, List.nodup_singleton k, ?_⟩
      intro a ha hb
      rw [List.mem_singleton] at hb
      subst hb
      rw [List.mem_map] at ha
      obtain ⟨p, hp, hpk⟩ := ha
      exact h (List.any_eq_true.mpr ⟨p, hp, by simp [hpk]⟩)
    · intro p hp
      rw [List.mem_append] at hp
      rcases hp with hp | hp
      · exact hids p hp
      · rw [List.mem_singleton] at hp
        subst hp
        exact hv

theorem goodKeys_foldl (l : List Tweet) :
    ∀ m, goodKeys m → goodKeys (l.foldl (fun m t => mapUpsert m t.id t) m) := by
  induction l with
  | nil => intro m hm; exact hm
  | cons t rest ih =>
    intro m hm
    exact ih _ (goodKeys_mapUpsert hm rfl)

theorem goodKeys_tweetMap (l : List Tweet) : goodKeys (tweetMap l) :=
  goodKeys_foldl l [] ⟨List.nodup_nil, by simp⟩

theorem uniqueTweets_map_id (l : List Tweet) :
    (uniqueTweets l).map Tweet.id = (tweetMap l).map Prod.fst := by
  obtain ⟨_, hids⟩ := goodKeys_tweetMap l
  unfold uniqueTweets
  rw [List.map_map]
  apply List.map_congr_left
  intro p hp
  exact hids p hp

theorem uniqueTweets_id_nodup (l : List Tweet) :
    ((uniqueTweets l).map Tweet.id).Nodup := by
  rw [uniqueTweets_map_id]
  exact (goodKeys_tweetMap l).1

/-! ### C2: merge correctness -/

/-- C2: for every pair of cache result set and broadcast result set, the page
returned by the merge stage contains no two entries with the same item id, is
sorted by creation time descending, and has length at most 20. -/
theorem merge_correctness (cachedTweets celebrityTweets : List Tweet) :
    ((timelinePage cachedTweets celebrityTweets).map Tweet.id).Nodup
  ∧ List.Sorted tsDesc (timelinePage cachedTweets celebrityTweets)
  ∧ (timelinePage cachedTweets celebrityTweets).length ≤ 20 := by
  refine ⟨?_, ?_, ?_⟩
  · have h1 := uniqueTweets_id_nodup (cachedTweets ++ celebrityTweets)
    have hperm :
        (List.insertionSort tsDesc (uniqueTweets (cachedTweets ++ celebrityTweets))).Perm
          (uniqueTweets (cachedTweets ++ celebrityTweets)) :=
      List.perm_insertionSort tsDesc _
    have h2 := (hperm.map Tweet.id).nodup_iff.mpr h1
    exact h2.sublist ((List.take_sublist 20 _).map Tweet.id)
  · have hs := List.sorted_insertionSort tsDesc (uniqueTweets (cachedTweets ++ celebrityTweets))
    exact hs.sublist (List.take_sublist 20 _)
  · unfold timelinePage
    simp [List.length_take]

/-! ### C3: cache depth invariant -/

/-- C3: after every completed worker operation (push to the front, then trim
to the first 20 entries), and after any further sequence of such operations,
the consumer's cache list has length at most 20. -/
theorem cache_depth_invariant (c : List Nat) (tid : Nat) (ops : List Nat) :
    (ops.foldl workerOp (workerOp c tid)).length ≤ 20 := by
  induction ops generalizing c tid with
  | nil =>
    simp [workerOp, lTrim, lPush, List.length_take]
  | cons o rest ih =>
    simpa using ih (workerOp c tid) o

/-! ### C9: worker acknowledgement policy -/

theorem fanoutLoop_spec (tid : Nat) (fails : Nat → Bool) (fl : List Nat)
    (cs : Nat → List Nat) :
    ((fanoutLoop tid fails fl cs).2 = Ack.ack ↔ ∀ f ∈ fl, fails f = false)
  ∧ ((fanoutLoop tid fails fl cs).2 = Ack.nackRequeue →
      (∃ f ∈ fl, fails f = true)
    ∧ (fanoutLoop tid fails fl cs).1
        = applyUpdates tid (fl.takeWhile (fun f => !fails f)) cs) := by
  induction fl generalizing cs with
  | nil =>
    refine ⟨by simp [fanoutLoop], ?_⟩
    intro h
    simp [fanoutLoop] at h
  | cons f rest ih =>
    by_cases hf : fails f = true
    · refine ⟨?_, ?_⟩
      · simp [fanoutLoop, hf]
      · intro _
        refine ⟨⟨f, by simp, hf⟩, ?_⟩
        simp [fanoutLoop, hf, applyUpdates, List.takeWhile_cons]
    · have hf' : fails f = false := by
        cases hfc : fails f
        · rfl
        · exact absurd hfc hf
      have hstep : fanoutLoop tid fails (f :: rest) cs
          = fanoutLoop tid fails rest (updateCache cs f (workerOp (cs f) tid)) := by
        simp [fanoutLoop, hf']
      have ihcs := ih (updateCache cs f (workerOp (cs f) tid))
      refine ⟨?_, ?_⟩
      · rw [hstep]
        rw [ihcs.1]
        constructor
        · intro hall g hg
          rcases List.mem_cons.mp hg with rfl | hg'
          · exact hf'
          · exact hall g hg'
        · intro hall g hg
          exact hall g (List.mem_cons_of_mem f hg)
      · intro hnack
        rw [hstep] at hnack
        obtain ⟨⟨g, hg, hgf⟩, hcaches⟩ := ihcs.2 hnack
        refine ⟨⟨g, List.mem_cons_of_mem f hg, hgf⟩, ?_⟩
        rw [hstep, hcaches]
        simp [List.takeWhile_cons, hf', applyUpdates]

/-- C9: the fan-out worker acknowledges a propagation job exactly when every
target cache update succeeds; on a mid-job failure the job is negatively
acknowledged for requeue and the updates already applied (the prefix of
targets before the first failure) are not rolled back. -/
theorem worker_ack_policy (cs : Nat → List Nat) (fails : Nat → Bool) (j : Job) :
    ((processJob cs fails j).2 = Ack.ack ↔ ∀ f ∈ j.followers, fails f = false)
  ∧ ((∃ f ∈ j.followers, fails f = true) →
      (processJob cs fails j).2 = Ack.nackRequeue
    ∧ (processJob cs fails j).1
        = applyUpdates j.tweetId (j.followers.takeWhile (fun f => !fails f)) cs) := by
  have hs := fanoutLoop_spec j.tweetId fails j.followers cs
  refine ⟨hs.1, ?_⟩
  intro hex
  have hnack : (processJob cs fails j).2 = Ack.nackRequeue := by
    cases hres : (processJob cs fails j).2 with
    | ack =>
      exfalso
      obtain ⟨f, hf, hft⟩ := hex
      have hff := (hs.1.mp hres) f hf
      rw [hff] at hft
      exact Bool.false_ne_true hft
    | nackRequeue => rfl
  exact ⟨hnack, (hs.2 hnack).2⟩

/-- Witness for C9 at a concrete job: target 2 fails, so the job is
negatively acknowledged and the caches equal the updates for the prefix
before the failure. -/
theorem worker_ack_policy_witness :
    (processJob (fun _ => []) (fun f => f == 2) ⟨7, [1, 2, 3]⟩).2 = Ack.nackRequeue
  ∧ (processJob (fun _ => []) (fun f => f == 2) ⟨7, [1, 2, 3]⟩).1
      = applyUpdates 7 (([1, 2, 3] : List Nat).takeWhile (fun f => !(f == 2)))
          (fun _ => []) :=
  (worker_ack_policy (fun _ => []) (fun f => f == 2) ⟨7, [1, 2, 3]⟩).2 (by decide)

/-! ### C4: idempotence of duplicate job delivery -/

theorem mem_mapUpsert {m : List (Nat × Tweet)} {k : Nat} {v : Tweet} {p : Nat × Tweet}
    (hp : p ∈ mapUpsert m k v) : p ∈ m ∨ p = (k, v) := by
  unfold mapUpsert at hp
  split at hp
  · rw [List.mem_map] at hp
    obtain ⟨q, hq, rfl⟩ := hp
    by_cases hqk : q.1 = k
    · right; simp [hqk]
    · left; simpa [hqk] using hq
  · rw [List.mem_append] at hp
    rcases hp with h | h
    · exact Or.inl h
    · right; simpa using h

theorem snd_mem_foldl (l : List Tweet) :
    ∀ m p, p ∈ l.foldl (fun m t => mapUpsert m t.id t) m → p ∈ m ∨ p.2 ∈ l := by
  induction l with
  | nil => intro m p hp; exact Or.inl hp
  | cons t rest ih =>
    intro m p hp
    rw [List.foldl_cons] at hp
    rcases ih _ p hp with h | h
    · rcases mem_mapUpsert h with h' | h'
      · exact Or.inl h'
      · right; rw [h']; simp
    · exact Or.inr (List.mem_cons_of_mem t h)

theorem uniqueTweets_subset (l : List Tweet) : ∀ t ∈ uniqueTweets l, t ∈ l := by
  intro t ht
  rw [uniqueTweets, List.mem_map] at ht
  obtain ⟨p, hp, rfl⟩ := ht
  rcases snd_mem_foldl l [] p hp with h | h
  · exact absurd h (List.not_mem_nil p)
  · exact h

theorem keys_mapUpsert_overwrite {m : List (Nat × Tweet)} {k : Nat} {v : Tweet} :
    (m.map (fun p => if p.1 == k then (k, v) else p)).map Prod.fst = m.map Prod.fst := by
  rw [List.map_map]
  apply List.map_congr_left
  intro p _
  by_cases hpk : p.1 = k
  · simp [hpk]
  · simp [hpk]

theorem mem_keys_mapUpsert {m : List (Nat × Tweet)} {k q : Nat} {v : Tweet} :
    q ∈ (mapUpsert m k v).map Prod.fst ↔ q ∈ m.map Prod.fst ∨ q = k := by
  unfold mapUpsert
  split
  case isTrue h =>
    rw [keys_mapUpsert_overwrite]
    constructor
    · exact Or.inl
    · rintro (hq | rfl)
      · exact hq
      · obtain ⟨p, hp, hpk⟩ := List.any_eq_true.mp h
        rw [beq_iff_eq] at hpk
        exact hpk ▸ List.mem_map_of_mem Prod.fst hp
  case isFalse h =>
    simp [List.mem_append]

theorem mem_keys_foldl (l : List Tweet) :
    ∀ m q, q ∈ ((l.foldl (fun m t => mapUpsert m t.id t) m).map Prod.fst)
      ↔ q ∈ m.map Prod.fst ∨ ∃ t ∈ l, t.id = q := by
  induction l with
  | nil => simp
  | cons t rest ih =>
    intro m q
    rw [List.foldl_cons, ih, mem_keys_mapUpsert]
    simp only [List.mem_cons]
    constructor
    · rintro ((hq | rfl) | ⟨u, hu, huq⟩)
      · exact Or.inl hq
      · exact Or.inr ⟨t, Or.inl rfl, rfl⟩
      · exact Or.inr ⟨u, Or.inr hu, huq⟩
    · rintro (hq | ⟨u, hu | hu, huq⟩)
      · exact Or.inl (Or.inl hq)
      · subst hu; exact Or.inl (Or.inr huq.symm)
      · exact Or.inr ⟨u, hu, huq⟩

theorem exists_mem_uniqueTweets {l : List Tweet} {k : Nat} :
    (∃ t ∈ uniqueTweets l, t.id = k) ↔ ∃ t ∈ l, t.id = k := by
  constructor
  · rintro ⟨t, ht, rfl⟩
    exact ⟨t, uniqueTweets_subset l t ht, rfl⟩
  · intro h
    have hk : k ∈ (tweetMap l).map Prod.fst := by
      have := (mem_keys_foldl l [] k).mpr (Or.inr h)
      simpa [tweetMap] using this
    rw [List.mem_map] at hk
    obtain ⟨p, hp, hpk⟩ := hk
    refine ⟨p.2, List.mem_map_of_mem Prod.snd hp, ?_⟩
    rw [(goodKeys_tweetMap l).2 p hp, hpk]

theorem countP_id_of_nodup {l : List Tweet} {k : Nat}
    (h : (l.map Tweet.id).Nodup) :
    l.countP (fun t => t.id == k) = if ∃ t ∈ l, t.id = k then 1 else 0 := by
  induction l with
  | nil => simp
  | cons t rest ih =>
    rw [List.map_cons, List.nodup_cons] at h
    obtain ⟨hnotin, hrest⟩ := h
    rw [List.countP_cons, ih hrest]
    by_cases htk : t.id = k
    · have h0 : ¬ ∃ u ∈ rest, u.id = k := by
        rintro ⟨u, hu, huk⟩
        exact hnotin (htk ▸ huk ▸ List.mem_map_of_mem Tweet.id hu)
      have h1 : ∃ u ∈ t :: rest, u.id = k := ⟨t, List.mem_cons_self t rest, htk⟩
      rw [if_neg h0, if_pos h1]
      simp [htk]
    · have hcong : (∃ u ∈ t :: rest, u.id = k) ↔ ∃ u ∈ rest, u.id = k := by
        constructor
        · rintro ⟨u, hu, huk⟩
          rcases List.mem_cons.mp hu with rfl | hu'
          · exact absurd huk htk
          · exact ⟨u, hu', huk⟩
        · rintro ⟨u, hu, huk⟩
          exact ⟨u, List.mem_cons_of_mem t hu, huk⟩
      rw [if_congr hcong rfl rfl]
      simp [htk]

theorem workerOp_eq (c : List Nat) (tid : Nat) : workerOp c tid = tid :: c.take 19 := by
  rfl

theorem mem_resolveCached_self {tweets : List Tweet} {c : List Nat} {tid : Nat} {t : Tweet}
    (ht : t.id = tid) :
    t ∈ resolveCached tweets (workerOp c tid) ↔ t ∈ tweets := by
  rw [workerOp_eq, resolveCached, if_pos (by simp)]
  rw [(List.perm_insertionSort tsDesc _).mem_iff, List.mem_filter]
  simp [ht]

/-- C4: duplicate delivery of the same propagation job to a consumer's cache
is harmless: after the merge stage's deduplication by item id, the job's item
has the same multiplicity (at most one) whether the worker applied the job
once or twice, for every store, broadcast result set and initial cache. -/
theorem fanout_idempotent (tweets celeb : List Tweet) (c : List Nat) (tid : Nat) :
    (uniqueTweets (resolveCached tweets (workerOp (workerOp c tid) tid) ++ celeb)).countP
        (fun t => t.id == tid)
  = (uniqueTweets (resolveCached tweets (workerOp c tid) ++ celeb)).countP
        (fun t => t.id == tid) := by
  rw [countP_id_of_nodup (uniqueTweets_id_nodup _),
      countP_id_of_nodup (uniqueTweets_id_nodup _)]
  have hiff :
      (∃ t ∈ uniqueTweets (resolveCached tweets (workerOp (workerOp c tid) tid) ++ celeb),
          t.id = tid)
    ↔ (∃ t ∈ uniqueTweets (resolveCached tweets (workerOp c tid) ++ celeb), t.id = tid) := by
    rw [exists_mem_uniqueTweets, exists_mem_uniqueTweets]
    constructor
    · rintro ⟨t, ht, rfl⟩
      rcases List.mem_append.mp ht with h | h
      · exact ⟨t, List.mem_append.mpr
          (Or.inl ((mem_resolveCached_self rfl).mpr ((mem_resolveCached_self rfl).mp h))), rfl⟩
      · exact ⟨t, List.mem_append.mpr (Or.inr h), rfl⟩
    · rintro ⟨t, ht, rfl⟩
      rcases List.mem_append.mp ht with h | h
      · exact ⟨t, List.mem_append.mpr
          (Or.inl ((mem_resolveCached_self rfl).mpr ((mem_resolveCached_self rfl).mp h))), rfl⟩
      · exact ⟨t, List.mem_append.mpr (Or.inr h), rfl⟩
  rw [if_congr hiff rfl rfl]

/-! ### C1: fan-out decision -/

/-- C1: for a post by a producer with follower count strictly below the
broadcast threshold, the write path enqueues exactly one propagation job,
containing the new item's id and the producer's full current follower-id
list; at or above the threshold it enqueues zero jobs. -/
theorem fanout_decision (s : Store) (uid : Nat) (txt : String) (now : Nat)
    (hu : uid ≠ 0) (ht : txt ≠ "") :
    (followerCount s uid < CELEBRITY_THRESHOLD →
       (postTweet s (some uid) (some txt) now).jobs
         = [{ tweetId := s.nextId, followers := followerIds s uid }])
  ∧ (CELEBRITY_THRESHOLD ≤ followerCount s uid →
       (postTweet s (some uid) (some txt) now).jobs = []) := by
  have hcond : (uid != 0 && txt != "") = true := by simp [hu, ht]
  constructor
  · intro hlt
    simp only [postTweet, hcond, if_true]
    split
    · rfl
    case isFalse hf => exact absurd hlt hf
  · intro hge
    simp only [postTweet, hcond, if_true]
    split
    case isTrue hf => exact absurd hf (not_lt.mpr hge)
    · rfl

/-- Witness for C1: user 1 has one follower (user 2), below the threshold,
so posting enqueues the single job with the new id and the follower list. -/
theorem fanout_decision_witness :
    (postTweet ⟨[1, 2], [(2, 1)], [], 3⟩ (some 1) (some "hi") 0).jobs
      = [{ tweetId := 3, followers := [2] }] :=
  (fanout_decision ⟨[1, 2], [(2, 1)], [], 3⟩ 1 "hi" 0 (by decide) (by decide)).1
    (by decide)

/-! ### C5: cache read failure on the read path -/

/-- C5 counterexample: for an existing consumer whose cache read fails, the
handler does not return a page at all (the failure is re-thrown and the
request is answered with a server error), contradicting the claim that the
request still succeeds with broadcast-only results. -/
theorem cache_failure_counterexample :
    (1 ∈ (Store.mk [1] [] [] 1).users)
  ∧ isPage (getTimeline ⟨[1], [], [], 1⟩ 1 (Except.error ())).1 = false := by
  decide

/-- C5 amended: when the cache read fails for an existing consumer, the whole
timeline request fails with an internal server error; no degraded
broadcast-only page is produced. -/
theorem cache_failure_fails_request (s : Store) (uid : Nat) (e : Unit)
    (h : uid ∈ s.users) :
    (getTimeline s uid (Except.error e)).1 = TimelineResult.serverError := by
  simp [getTimeline, h]

/-- Witness for the amended C5 at a concrete store. -/
theorem cache_failure_fails_request_witness :
    (getTimeline ⟨[1], [], [], 1⟩ 1 (Except.error ())).1
      = TimelineResult.serverError :=
  cache_failure_fails_request ⟨[1], [], [], 1⟩ 1 () (by decide)

/-! ### C6: unknown consumer id -/

/-- C6: for a timeline request whose consumer id is not in the store, the
handler returns a not-found error carrying no page, and performs neither the
cache read nor the broadcast query. -/
theorem unknown_user_not_found (s : Store) (uid : Nat) (cres : Except Unit (List Nat))
    (h : uid ∉ s.users) :
    (getTimeline s uid cres).1 = TimelineResult.notFound
  ∧ (getTimeline s uid cres).2 = [REv.userCheck uid] := by
  simp [getTimeline, h]

/-- Witness for C6: consumer 1 does not exist in a store holding only user 2. -/
theorem unknown_user_not_found_witness :
    (getTimeline ⟨[2], [], [], 1⟩ 1 (Except.ok [])).1 = TimelineResult.notFound
  ∧ (getTimeline ⟨[2], [], [], 1⟩ 1 (Except.ok [])).2 = [REv.userCheck 1] :=
  unknown_user_not_found ⟨[2], [], [], 1⟩ 1 (Except.ok []) (by decide)

/-! ### C7: write-then-publish ordering -/

theorem postTweet_trace_cases (s : Store) (u : Option Nat) (t : Option String) (now : Nat) :
    (postTweet s u t now).trace = []
  ∨ (∃ uid, (postTweet s u t now).trace
        = [WEv.insertTweet s.nextId, WEv.countFollowers uid])
  ∨ (∃ uid j, j.tweetId = s.nextId ∧ (postTweet s u t now).trace
        = [WEv.insertTweet s.nextId, WEv.countFollowers uid,
           WEv.listFollowers uid, WEv.publish j]) := by
  match u, t with
  | none, _ => left; rfl
  | some uid, none => left; rfl
  | some uid, some txt =>
    by_cases hcond : (uid != 0 && txt != "") = true
    · simp only [postTweet, hcond, if_true]
      split
      · right; right; exact ⟨uid, _, rfl, rfl⟩
      · right; left; exact ⟨uid, rfl⟩
    · left
      simp only [postTweet]
      rw [if_neg hcond]

/-- C7: in every write-path execution, whenever a propagation job appears in
the trace, the durable insert of that job's item appears strictly earlier:
a job is never published for an item that has not been persisted first. -/
theorem write_then_publish (s : Store) (u : Option Nat) (t : Option String) (now : Nat)
    (j : Job) (i : Nat)
    (h : (postTweet s u t now).trace.get? i = some (WEv.publish j)) :
    ∃ k, k < i ∧ (postTweet s u t now).trace.get? k
      = some (WEv.insertTweet j.tweetId) := by
  rcases postTweet_trace_cases s u t now with htr | ⟨uid, htr⟩ | ⟨uid, j', hj', htr⟩
  · rw [htr] at h; simp at h
  · rw [htr] at h
    match i with
    | 0 => simp [List.get?] at h
    | 1 => simp [List.get?] at h
    | n + 2 => simp [List.get?] at h
  · rw [htr] at h ⊢
    match i with
    | 0 => simp [List.get?] at h
    | 1 => simp [List.get?] at h
    | 2 => simp [List.get?] at h
    | 3 =>
      simp only [List.get?] at h
      injection h with h1
      injection h1 with h2
      subst h2
      exact ⟨0, by omega, by rw [hj']; rfl⟩
    | n + 4 => simp [List.get?] at h

/-- Witness for C7: in the concrete narrow-producer run, the publish event
sits at index 3 and the insert of the same tweet id strictly before it. -/
theorem write_then_publish_witness :
    ∃ k, k < 3
  ∧ (postTweet ⟨[1, 2], [(2, 1)], [], 3⟩ (some 1) (some "hi") 0).trace.get? k
      = some (WEv.insertTweet (Job.mk 3 [2]).tweetId) :=
  write_then_publish ⟨[1, 2], [(2, 1)], [], 3⟩ (some 1) (some "hi") 0 ⟨3, [2]⟩ 3
    (by decide)

/-! ### C8: validation before any mutation -/

/-- C8: a write request missing the userId field or the text field is
rejected with status 400 before any store mutation: the store is unchanged,
no job is enqueued, and no store or queue operation happens at all. -/
theorem validation_before_mutation (s : Store) (u : Option Nat) (t : Option String)
    (now : Nat) (h : u = none ∨ t = none) :
    (postTweet s u t now).status = 400 ∧ (postTweet s u t now).store = s
  ∧ (postTweet s u t now).jobs = [] ∧ (postTweet s u t now).trace = [] := by
  rcases h with rfl | rfl
  · cases t <;> simp [postTweet]
  · cases u <;> simp [postTweet]

/-- Witness for C8: a request with a missing userId is rejected untouched. -/
theorem validation_before_mutation_witness :
    (postTweet ⟨[1], [], [], 1⟩ none (some "hi") 0).status = 400
  ∧ (postTweet ⟨[1], [], [], 1⟩ none (some "hi") 0).store = ⟨[1], [], [], 1⟩
  ∧ (postTweet ⟨[1], [], [], 1⟩ none (some "hi") 0).jobs = []
  ∧ (postTweet ⟨[1], [], [], 1⟩ none (some "hi") 0).trace = [] :=
  validation_before_mutation ⟨[1], [], [], 1⟩ none (some "hi") 0 (Or.inl rfl)

/-! ### C10: deduplication keeps the later (broadcast) record -/

theorem mapUpsert_cons_of_ne {m' : List (Nat × Tweet)} {p : Nat × Tweet} {k : Nat}
    {v : Tweet} (hpk : ¬ p.1 = k) :
    mapUpsert (p :: m') k v = p :: mapUpsert m' k v := by
  cases hany : m'.any (fun q => q.1 == k)
  · simp [mapUpsert, hpk, hany]
  · simp [mapUpsert, hpk, hany]

theorem findVal_mapUpsert_self (m : List (Nat × Tweet)) (k : Nat) (v : Tweet) :
    findVal (mapUpsert m k v) k = some v := by
  induction m with
  | nil => simp [mapUpsert, findVal]
  | cons p m' ih =>
    by_cases hpk : p.1 = k
    · simp [mapUpsert, findVal, hpk]
    · rw [mapUpsert_cons_of_ne hpk]
      unfold findVal
      rw [List.find?_cons_of_neg _ (by simp [hpk])]
      exact ih

theorem find?_overwrite (m : List (Nat × Tweet)) (k q : Nat) (v : Tweet) (hqk : q ≠ k) :
    (m.map (fun p => if p.1 == k then (k, v) else p)).find? (fun p => p.1 == q)
      = m.find? (fun p => p.1 == q) := by
  induction m with
  | nil => rfl
  | cons p m' ih =>
    rw [List.map_cons]
    by_cases hpq : p.1 = q
    · have hpk : ¬ p.1 = k := by rw [hpq]; exact hqk
      rw [if_neg (by simp [hpk])]
      rw [List.find?_cons_of_pos _ (by simp [hpq]), List.find?_cons_of_pos _ (by simp [hpq])]
    · by_cases hpk : p.1 = k
      · rw [if_pos (by simp [hpk])]
        rw [List.find?_cons_of_neg _ (by simp [Ne.symm hqk]),
            List.find?_cons_of_neg _ (by simp [hpq])]
        exact ih
      · rw [if_neg (by simp [hpk])]
        rw [List.find?_cons_of_neg _ (by simp [hpq]),
            List.find?_cons_of_neg _ (by simp [hpq])]
        exact ih

theorem find?_append_single (m : List (Nat × Tweet)) (k q : Nat) (v : Tweet)
    (hqk : q ≠ k) :
    (m ++ [(k, v)]).find? (fun p => p.1 == q) = m.find? (fun p => p.1 == q) := by
  induction m with
  | nil =>
    rw [List.nil_append, List.find?_cons_of_neg _ (by simp [Ne.symm hqk])]
  | cons p m' ih =>
    by_cases hpq : p.1 = q
    · rw [List.cons_append, List.find?_cons_of_pos _ (by simp [hpq]),
          List.find?_cons_of_pos _ (by simp [hpq])]
    · rw [List.cons_append, List.find?_cons_of_neg _ (by simp [hpq]),
          List.find?_cons_of_neg _ (by simp [hpq])]
      exact ih

theorem findVal_mapUpsert_ne {m : List (Nat × Tweet)} {k q : Nat} {v : Tweet}
    (hqk : q ≠ k) : findVal (mapUpsert m k v) q = findVal m q := by
  unfold mapUpsert findVal
  split
  · rw [find?_overwrite m k q v hqk]
  · rw [find?_append_single m k q v hqk]

theorem findVal_foldl_mem (b : List Tweet) (i : Nat) :
    ∀ (m : List (Nat × Tweet)) (v : Tweet), (∃ t ∈ b, t.id = i) →
      findVal (b.foldl (fun m t => mapUpsert m t.id t) m) i = some v → v ∈ b := by
  induction b using List.reverseRecOn with
  | nil =>
    intro m v hb _
    obtain ⟨t, ht, _⟩ := hb
    exact absurd ht (List.not_mem_nil t)
  | append_singleton bs t ih =>
    intro m v hb hv
    rw [List.foldl_append] at hv
    simp only [List.foldl_cons, List.foldl_nil] at hv
    by_cases hti : t.id = i
    · rw [hti, findVal_mapUpsert_self] at hv
      injection hv with hv'
      subst hv'
      exact List.mem_append_right bs (List.mem_singleton_self t)
    · rw [findVal_mapUpsert_ne (fun he => hti he.symm)] at hv
      have hb' : ∃ u ∈ bs, u.id = i := by
        obtain ⟨u, hu, hui⟩ := hb
        rcases List.mem_append.mp hu with h | h
        · exact ⟨u, h, hui⟩
        · rw [List.mem_singleton] at h
          subst h
          exact absurd hui hti
      exact List.mem_append_left _ (ih m v hb' hv)

theorem findVal_of_mem {m : List (Nat × Tweet)} (hnd : (m.map Prod.fst).Nodup)
    {p : Nat × Tweet} (hp : p ∈ m) : findVal m p.1 = some p.2 := by
  induction m with
  | nil => exact absurd hp (List.not_mem_nil p)
  | cons q m' ih =>
    rw [List.map_cons, List.nodup_cons] at hnd
    obtain ⟨hq, hnd'⟩ := hnd
    rcases List.mem_cons.mp hp with rfl | hp'
    · unfold findVal
      rw [List.find?_cons_of_pos _ (by simp)]
      rfl
    · by_cases hq1 : q.1 = p.1
      · exact absurd (hq1 ▸ List.mem_map_of_mem Prod.fst hp') hq
      · unfold findVal
        rw [List.find?_cons_of_neg _ (by simp [hq1])]
        exact ih hnd' hp'

/-- C10: when an item id occurs in the broadcast result set, the record that
the merge stage's id-keyed deduplication returns for that id is a record of
the broadcast result set — the later occurrence in the concatenated list
overwrites the cache copy. -/
theorem dedup_prefers_broadcast (cached celeb : List Tweet) (i : Nat)
    (hb : ∃ t ∈ celeb, t.id = i) :
    ∀ v ∈ uniqueTweets (cached ++ celeb), v.id = i → v ∈ celeb := by
  intro v hv hvi
  rw [uniqueTweets, List.mem_map] at hv
  obtain ⟨p, hp, rfl⟩ := hv
  have hgood := goodKeys_tweetMap (cached ++ celeb)
  have hfv : findVal (tweetMap (cached ++ celeb)) p.1 = some p.2 :=
    findVal_of_mem hgood.1 hp
  have hkey : p.1 = i := by
    rw [← hgood.2 p hp]
    exact hvi
  rw [hkey] at hfv
  have hsplit : tweetMap (cached ++ celeb)
      = celeb.foldl (fun m t => mapUpsert m t.id t) (tweetMap cached) := by
    rw [tweetMap, List.foldl_append]
    rfl
  rw [hsplit] at hfv
  exact findVal_foldl_mem celeb i (tweetMap cached) p.2 hb hfv

/-- Witness for C10: id 1 occurs in both sets; the dedup output holds the
broadcast copy (text "b"), which the theorem places in the broadcast set. -/
theorem dedup_prefers_broadcast_witness :
    uniqueTweets ([⟨1, 10, "a", 5⟩] ++ [⟨1, 10, "b", 5⟩]) = [⟨1, 10, "b", 5⟩]
  ∧ (⟨1, 10, "b", 5⟩ : Tweet) ∈ [(⟨1, 10, "b", 5⟩ : Tweet)] :=
  ⟨by decide, dedup_prefers_broadcast [⟨1, 10, "a", 5⟩] [⟨1, 10, "b", 5⟩] 1
      ⟨⟨1, 10, "b", 5⟩, List.mem_singleton_self _, rfl⟩ ⟨1, 10, "b", 5⟩ (by decide) rfl⟩
